import Mathlib

/-!
Verification of the bibval citation-matching core (`src/matcher.rs`).

The matcher compares bibliographic entries: it normalizes strings,
scores string similarity with the Jaro-Winkler metric, detects typed
discrepancies between a local and a remote entry, computes a combined
match score between a target and a candidate, and selects the best
candidate from a list.  Floating-point scores are embedded as rationals
(`ℚ`): every score the program manipulates is produced by finite
field-free arithmetic on small integers, so the rational embedding is
exact, and the total order on `ℚ` mirrors `f64` comparison on non-NaN
values.
-/

namespace Bibval

/-- Modelled from the spec: `Entry` (src/entry.rs is not among the provided
sources; §3 of the spec gives the data model).  A bibliographic record with
optional title, year, DOI and venue, and an ordered author list. -/
structure Entry where
  id : String
  entry_type : String
  title : Option String := none
  year : Option Int := none
  authors : List String := []
  doi : Option String := none
  venue : Option String := none
deriving Repr, DecidableEq

/-- Modelled from the spec: discrepancy severity (§3), ordered Error >
Warning > Info. -/
inductive Severity where
  | Error
  | Warning
  | Info
deriving Repr, DecidableEq

/-- Modelled from the spec: the closed set of compared fields (§3). -/
inductive DiscrepancyField where
  | Title
  | Year
  | Authors
  | Doi
  | Venue
deriving Repr, DecidableEq

/-- Modelled from the spec: one detected difference between a local and a
remote entry (§3). -/
structure Discrepancy where
  field : DiscrepancyField
  severity : Severity
  local_value : String
  remote_value : String
  message : String
deriving Repr, DecidableEq

/-- Lowercasing of a string, character by character (the model of
`str::to_lowercase` for the ASCII data handled here). -/
def toLowerStr (s : String) : String := ⟨s.data.map Char.toLower⟩

/-- Whitespace-splitting of a character list: maximal runs of non-space
characters, empties dropped (the model of `split_whitespace`). -/
def wordsAux : List Char → List Char → List (List Char)
  | [], acc => if acc.isEmpty then [] else [acc.reverse]
  | c :: rest, acc =>
    if c = ' ' then
      if acc.isEmpty then wordsAux rest [] else acc.reverse :: wordsAux rest []
    else wordsAux rest (c :: acc)

/-- Interleave single spaces between words. -/
def joinSpace : List (List Char) → List Char
  | [] => []
  | [w] => w
  | w :: ws => w ++ ' ' :: joinSpace ws

/-- Modelled from the spec: `normalize_string` (src/entry.rs is not among
the provided sources; §4.1: lowercase, strip punctuation, collapse
whitespace to single separators). -/
def normalize_string (s : String) : String :=
  let cleaned := s.data.map (fun c =>
    let lc := Char.toLower c
    if lc.isAlphanum then lc else ' ')
  ⟨joinSpace (wordsAux cleaned [])⟩

/-! ### The similarity primitive

`src/matcher.rs` routes every fuzzy comparison through
`strsim::jaro_winkler`.  The `strsim` crate is an external dependency
(not under src/); the definitions below embed its Jaro-Winkler
algorithm, whose boundary contract the spec states in §4.2: a similarity
in [0,1], weighted toward shared prefixes.  The scan state carries the
consumed flags for the second string, the match count, the transposition
count and the index of the previous match. -/

structure JaroState where
  consumed : List Bool
  matchCount : Nat
  transpositions : Nat
  bMatchIndex : Nat
deriving Repr

/-- First index `j` of `b` inside the search window `[lo, hi]` holding the
character `c` and not yet consumed (the inner loop of the Jaro scan). -/
def jaroFind (b : List Char) (consumed : List Bool) (lo hi : Nat) (c : Char) : Option Nat :=
  (List.range b.length).find? (fun j =>
    decide (lo ≤ j) && decide (j ≤ hi) && decide (b.get? j = some c) &&
      decide (consumed.get? j = some false))

/-- One step of the Jaro scan: try to match the `i`-th character `c` of the
first string inside its search window of the second string. -/
def jaroStep (b : List Char) (sr : Nat) (st : JaroState) (i : Nat) (c : Char) : JaroState :=
  let lo := i - sr
  let hi := min (b.length - 1) (i + sr)
  if hi < lo then st
  else
    match jaroFind b st.consumed lo hi c with
    | none => st
    | some j =>
      { consumed := st.consumed.set j true
        matchCount := st.matchCount + 1
        transpositions :=
          if j < st.bMatchIndex then st.transpositions + 1 else st.transpositions
        bMatchIndex := j }

/-- Jaro similarity of two character lists, following the scan of the
`strsim` crate (matches found in a window of width
`max len / 2 - 1`, transpositions counted as descents of the matched
indices). -/
def jaro (a b : List Char) : ℚ :=
  if a.length = 0 ∧ b.length = 0 then 1
  else if a.length = 0 ∨ b.length = 0 then 0
  else if a.length = 1 ∧ b.length = 1 then (if a = b then 1 else 0)
  else
    let sr := max a.length b.length / 2 - 1
    let st := a.enum.foldl (fun st ic => jaroStep b sr st ic.1 ic.2)
      ⟨List.replicate b.length false, 0, 0, 0⟩
    if st.matchCount = 0 then 0
    else (1/3) * ((st.matchCount : ℚ) / a.length + (st.matchCount : ℚ) / b.length +
      ((st.matchCount : ℚ) - st.transpositions) / st.matchCount)

/-- Jaro-Winkler similarity: the Jaro score boosted by the length of the
common leading segment, clamped at 1. -/
def jaro_winkler (a b : String) : ℚ :=
  let sim := jaro a.toList b.toList
  let pfxLen := ((a.toList.zip b.toList).takeWhile (fun p => p.1 == p.2)).length
  min (sim + (1/10) * (pfxLen : ℚ) * (1 - sim)) 1

/-! ### Policy constants of src/matcher.rs -/

def TITLE_MATCH_THRESHOLD : ℚ := 0.85

def TITLE_WARNING_THRESHOLD : ℚ := 0.90

def AUTHOR_MATCH_THRESHOLD : ℚ := 0.80

def MAX_YEAR_DIFFERENCE : Int := 2

def MIN_AUTHOR_OVERLAP : ℚ := 0.3

/-! ### Maximum-by scan

`find_best_match` and the per-author best-counterpart search both use
Rust's `Iterator::max_by`, which folds the comparison from the left and,
when several elements are equally maximal, keeps the one encountered
last (`core::cmp::max_by` returns its second argument on equality). -/

def maxStep {α : Type} (acc y : α × ℚ) : α × ℚ :=
  if acc.2 > y.2 then acc else y

def maxBySecond {α : Type} : List (α × ℚ) → Option (α × ℚ)
  | [] => none
  | x :: xs => some (xs.foldl maxStep x)

/-- Percentage rendering used in discrepancy messages. -/
def pctString (q : ℚ) : String := toString (round (q * 100))

/-- Title comparison of `compare_entries`: evaluated only when both sides
have a title; Error below 0.85, Warning below 0.90. -/
def titleDiscs (loc remote : Entry) : List Discrepancy :=
  match loc.title, remote.title with
  | some local_title, some remote_title =>
    let similarity :=
      jaro_winkler (normalize_string local_title) (normalize_string remote_title)
    if similarity < TITLE_MATCH_THRESHOLD then
      [{ field := DiscrepancyField.Title
         severity := Severity.Error
         local_value := local_title
         remote_value := remote_title
         message := "Title significantly different (similarity: " ++
           pctString similarity ++ "%)" }]
    else if similarity < TITLE_WARNING_THRESHOLD then
      [{ field := DiscrepancyField.Title
         severity := Severity.Warning
         local_value := local_title
         remote_value := remote_title
         message := "Title slightly different (similarity: " ++
           pctString similarity ++ "%)" }]
    else []
  | _, _ => []

/-- Year comparison of `compare_entries`: evaluated only when both sides
have a year; any inequality is an Error. -/
def yearDiscs (loc remote : Entry) : List Discrepancy :=
  match loc.year, remote.year with
  | some local_year, some remote_year =>
    if local_year ≠ remote_year then
      [{ field := DiscrepancyField.Year
         severity := Severity.Error
         local_value := toString local_year
         remote_value := toString remote_year
         message := "Year mismatch: " ++ toString local_year ++ " vs " ++
           toString remote_year }]
    else []
  | _, _ => []

/-- DOI comparison of `compare_entries`: flagged only when the local DOI is
absent and the remote DOI is present. -/
def doiDiscs (loc remote : Entry) : List Discrepancy :=
  match loc.doi, remote.doi with
  | none, some d =>
    [{ field := DiscrepancyField.Doi
       severity := Severity.Warning
       local_value := "(none)"
       remote_value := d
       message := "Missing DOI in local entry" }]
  | _, _ => []

/-- Venue comparison of `compare_entries`: evaluated only when both sides
have a venue; similarity below 0.70 is an Info. -/
def venueDiscs (loc remote : Entry) : List Discrepancy :=
  match loc.venue, remote.venue with
  | some local_venue, some remote_venue =>
    let similarity :=
      jaro_winkler (normalize_string local_venue) (normalize_string remote_venue)
    if similarity < 0.70 then
      [{ field := DiscrepancyField.Venue
         severity := Severity.Info
         local_value := local_venue
         remote_value := remote_venue
         message := "Venue name differs" }]
    else []
  | _, _ => []

/-- Best remote counterpart of one (already normalized) local author name:
`remote.iter().map(|r| (r, jaro_winkler(local_norm, normalize(r)))).max_by(..)`. -/
def authorBest (local_norm : String) (remote : List String) : Option (String × ℚ) :=
  maxBySecond (remote.map (fun r => (r, jaro_winkler local_norm (normalize_string r))))

/-- Warning block emitted for one local author by `compare_authors`. -/
def authorDiscsFor (remote : List String) (local_author : String) : List Discrepancy :=
  match authorBest (normalize_string local_author) remote with
  | some (remote_author, similarity) =>
    if similarity < AUTHOR_MATCH_THRESHOLD then
      [{ field := DiscrepancyField.Authors
         severity := Severity.Warning
         local_value := local_author
         remote_value := remote_author
         message := "Author name spelling may differ: " ++ local_author ++
           " vs " ++ remote_author }]
    else []
  | none => []

/-- Author list comparison (`compare_authors` in src/matcher.rs): nothing if
either list is empty; a count-mismatch Warning when the lengths differ; then
one Warning per local author whose best remote counterpart scores below
0.80. -/
def compare_authors (loc remote : List String) : List Discrepancy :=
  if loc.isEmpty || remote.isEmpty then []
  else
    (if loc.length ≠ remote.length then
      [{ field := DiscrepancyField.Authors
         severity := Severity.Warning
         local_value := toString loc.length ++ " authors"
         remote_value := toString remote.length ++ " authors"
         message := "Author count differs: " ++ toString loc.length ++
           " (local) vs " ++ toString remote.length ++ " (remote)" }]
    else []) ++
    (loc.map (authorDiscsFor remote)).flatten

/-- Discrepancy engine (`compare_entries` in src/matcher.rs): title, year,
authors, DOI, venue, in that fixed order. -/
def compare_entries (loc remote : Entry) : List Discrepancy :=
  titleDiscs loc remote ++ yearDiscs loc remote ++
    compare_authors loc.authors remote.authors ++ doiDiscs loc remote ++
    venueDiscs loc remote

/-- Title similarity between two entries (`title_similarity` in
src/matcher.rs): Jaro-Winkler of the normalized titles, 0 if either is
absent. -/
def title_similarity (a b : Entry) : ℚ :=
  match a.title, b.title with
  | some title_a, some title_b =>
    jaro_winkler (normalize_string title_a) (normalize_string title_b)
  | _, _ => 0

/-- Year compatibility (`years_compatible` in src/matcher.rs): true when
either year is absent, else true iff the absolute difference is at most 2. -/
def years_compatible (a b : Entry) : Bool :=
  match a.year, b.year with
  | some year_a, some year_b => decide (|year_a - year_b| ≤ MAX_YEAR_DIFFERENCE)
  | _, _ => true

/-- Final whitespace-delimited token of a string (`split_whitespace().last()`
with `""` as fallback). -/
def lastToken (s : String) : String :=
  match (wordsAux s.data []).getLast? with
  | some w => ⟨w⟩
  | none => ""

/-- Fuzzy author match used by `author_overlap`: full-name similarity at
least 0.80, or last-token similarity at least 0.9. -/
def authorFuzzyMatch (local_norm remote_author : String) : Bool :=
  let remote_norm := normalize_string remote_author
  let full_sim := jaro_winkler local_norm remote_norm
  let last_name_sim := jaro_winkler (lastToken local_norm) (lastToken remote_norm)
  decide (full_sim ≥ AUTHOR_MATCH_THRESHOLD) || decide (last_name_sim ≥ 0.9)

/-- Author overlap ratio (`author_overlap` in src/matcher.rs): 1 when either
list is empty, else the fraction of local authors that fuzzily match some
remote author. -/
def author_overlap (loc remote : Entry) : ℚ :=
  if loc.authors.isEmpty || remote.authors.isEmpty then 1
  else
    let matchCount := loc.authors.countP (fun local_author =>
      remote.authors.any (authorFuzzyMatch (normalize_string local_author)))
    (matchCount : ℚ) / (loc.authors.length : ℚ)

/-- Combined match score (`match_score` in src/matcher.rs): hard filters on
title similarity, year compatibility and author overlap, then a DOI
exact-match shortcut, else the 0.7/0.3 title/author blend. -/
def match_score (target candidate : Entry) : ℚ :=
  let title_sim := title_similarity target candidate
  if title_sim < TITLE_MATCH_THRESHOLD then 0
  else if years_compatible target candidate = false then 0
  else
    let author_sim := author_overlap target candidate
    if ¬ target.authors.isEmpty ∧ ¬ candidate.authors.isEmpty ∧
        author_sim < MIN_AUTHOR_OVERLAP then 0
    else
      let base_score := title_sim * 0.7 + author_sim * 0.3
      match target.doi, candidate.doi with
      | some doi_a, some doi_b =>
        if toLowerStr doi_a = toLowerStr doi_b then 1 else base_score
      | _, _ => base_score

/-- Best-candidate selection (`find_best_match` in src/matcher.rs): score
every candidate, keep the strictly positive scores, take the maximum
(last maximal element on ties, as `Iterator::max_by` does). -/
def find_best_match (target : Entry) (candidates : List Entry) : Option (Entry × ℚ) :=
  maxBySecond
    ((candidates.map (fun c => (c, match_score target c))).filter (fun p => decide (p.2 > 0)))

/-! ### Specification of the maximum-by scan -/

lemma maxStep_eq_or {α : Type} (acc y : α × ℚ) : maxStep acc y = acc ∨ maxStep acc y = y := by
  unfold maxStep
  split <;> simp

lemma le_maxStep_left {α : Type} (acc y : α × ℚ) : acc.2 ≤ (maxStep acc y).2 := by
  unfold maxStep
  split
  · exact le_rfl
  · exact le_of_not_lt (by assumption)

lemma le_maxStep_right {α : Type} (acc y : α × ℚ) : y.2 ≤ (maxStep acc y).2 := by
  unfold maxStep
  split
  · exact le_of_lt (by assumption)
  · exact le_rfl

lemma le_foldl_maxStep {α : Type} (l : List (α × ℚ)) (a : α × ℚ) :
    a.2 ≤ (l.foldl maxStep a).2 := by
  induction l generalizing a with
  | nil => exact le_rfl
  | cons y l ih => exact le_trans (le_maxStep_left a y) (ih (maxStep a y))

lemma mem_le_foldl_maxStep {α : Type} (l : List (α × ℚ)) (a : α × ℚ) :
    ∀ q ∈ l, q.2 ≤ (l.foldl maxStep a).2 := by
  induction l generalizing a with
  | nil => intro q hq; cases hq
  | cons y l ih =>
    intro q hq
    rcases List.mem_cons.mp hq with h | h
    · subst h
      exact le_trans (le_maxStep_right a q) (le_foldl_maxStep l (maxStep a q))
    · exact ih (maxStep a y) q h

lemma foldl_maxStep_mem {α : Type} (l : List (α × ℚ)) (a : α × ℚ) :
    l.foldl maxStep a ∈ a :: l := by
  induction l generalizing a with
  | nil => simp
  | cons y l ih =>
    have h := ih (maxStep a y)
    rcases maxStep_eq_or a y with he | he <;>
      rcases List.mem_cons.mp h with h1 | h1 <;> simp [he ▸ h1, List.mem_cons] <;>
        simp_all [List.mem_cons]

lemma foldl_maxStep_split {α : Type} (l : List (α × ℚ)) (a : α × ℚ) :
    ∃ l1 l2, a :: l = l1 ++ (l.foldl maxStep a) :: l2 ∧
      ∀ q ∈ l2, q.2 < (l.foldl maxStep a).2 := by
  induction l generalizing a with
  | nil => exact ⟨[], [], rfl, by intro q hq; cases hq⟩
  | cons y l ih =>
    rw [List.foldl_cons]
    obtain ⟨l1, l2, heq, hstrict⟩ := ih (maxStep a y)
    by_cases h : a.2 > y.2
    · have hm : maxStep a y = a := by rw [maxStep, if_pos h]
      rw [hm] at heq hstrict ⊢
      cases l1 with
      | nil =>
        rw [List.nil_append] at heq
        have ha : a = List.foldl maxStep a l := (List.cons.injEq _ _ _ _ ▸ heq).1
        have hl : l = l2 := (List.cons.injEq _ _ _ _ ▸ heq).2
        refine ⟨[], y :: l, ?_, ?_⟩
        · rw [List.nil_append, ← ha]
        · intro q hq
          rcases List.mem_cons.mp hq with h1 | h1
          · subst h1; rw [← ha]; exact h
          · exact hstrict q (hl ▸ h1)
      | cons z l1' =>
        rw [List.cons_append] at heq
        have hz : a = z := (List.cons.injEq _ _ _ _ ▸ heq).1
        have hl : l = l1' ++ List.foldl maxStep a l :: l2 :=
          (List.cons.injEq _ _ _ _ ▸ heq).2
        refine ⟨a :: y :: l1', l2, ?_, hstrict⟩
        rw [List.cons_append, List.cons_append]
        exact congrArg (a :: ·) (congrArg (y :: ·) hl)
    · have hm : maxStep a y = y := by rw [maxStep, if_neg h]
      rw [hm] at heq hstrict ⊢
      refine ⟨a :: l1, l2, ?_, hstrict⟩
      rw [List.cons_append]
      exact congrArg (a :: ·) heq

lemma maxBySecond_none_iff {α : Type} (l : List (α × ℚ)) :
    maxBySecond l = none ↔ l = [] := by
  cases l <;> simp [maxBySecond]

lemma maxBySecond_some_spec {α : Type} (l : List (α × ℚ)) (p : α × ℚ)
    (h : maxBySecond l = some p) :
    p ∈ l ∧ (∀ q ∈ l, q.2 ≤ p.2) ∧
      ∃ l1 l2, l = l1 ++ p :: l2 ∧ ∀ q ∈ l2, q.2 < p.2 := by
  cases l with
  | nil => cases h
  | cons x xs =>
    have hp : xs.foldl maxStep x = p := by simpa [maxBySecond] using h
    refine ⟨hp ▸ foldl_maxStep_mem xs x, ?_, hp ▸ foldl_maxStep_split xs x⟩
    intro q hq
    rcases List.mem_cons.mp hq with h1 | h1
    · exact h1 ▸ hp ▸ le_foldl_maxStep xs x
    · exact hp ▸ mem_le_foldl_maxStep xs x q h1

/-! ### Decomposition of filter and map along a split -/

lemma filter_split {α : Type} (p : α → Bool) :
    ∀ (l l1 l2 : List α) (x : α), l.filter p = l1 ++ x :: l2 →
      ∃ m1 m2, l = m1 ++ x :: m2 ∧ m1.filter p = l1 ∧ m2.filter p = l2 := by
  intro l
  induction l with
  | nil => intro l1 l2 x h; simp at h
  | cons a t ih =>
    intro l1 l2 x h
    by_cases hp : p a
    · rw [List.filter_cons_of_pos hp] at h
      cases l1 with
      | nil =>
        simp only [List.nil_append, List.cons.injEq] at h
        obtain ⟨rfl, h2⟩ := h
        exact ⟨[], t, rfl, by simp, h2⟩
      | cons b l1' =>
        simp only [List.cons_append, List.cons.injEq] at h
        obtain ⟨rfl, hrest⟩ := h
        obtain ⟨m1, m2, hl, h1, h2⟩ := ih l1' l2 x hrest
        exact ⟨a :: m1, m2, by simp [hl], by simp [List.filter_cons_of_pos hp, h1], h2⟩
    · rw [List.filter_cons_of_neg hp] at h
      obtain ⟨m1, m2, hl, h1, h2⟩ := ih l1 l2 x h
      exact ⟨a :: m1, m2, by simp [hl], by simp [List.filter_cons_of_neg hp, h1], h2⟩

lemma map_split {α β : Type} (f : α → β) :
    ∀ (l : List α) (l1 l2 : List β) (y : β), l.map f = l1 ++ y :: l2 →
      ∃ m1 x m2, l = m1 ++ x :: m2 ∧ f x = y ∧ m1.map f = l1 ∧ m2.map f = l2 := by
  intro l
  induction l with
  | nil => intro l1 l2 y h; simp at h
  | cons a t ih =>
    intro l1 l2 y h
    rw [List.map_cons] at h
    cases l1 with
    | nil =>
      simp only [List.nil_append, List.cons.injEq] at h
      exact ⟨[], a, t, rfl, h.1, rfl, h.2⟩
    | cons b l1' =>
      simp only [List.cons_append, List.cons.injEq] at h
      obtain ⟨rfl, hrest⟩ := h
      obtain ⟨m1, x, m2, hl, hf, h1, h2⟩ := ih l1' l2 y hrest
      exact ⟨a :: m1, x, m2, by simp [hl], hf, by simp [h1], h2⟩

/-! ### Bounds for the similarity primitive -/

lemma count_true_set : ∀ (l : List Bool) (j : Nat), l.get? j = some false →
    (l.set j true).count true = l.count true + 1 := by
  intro l
  induction l with
  | nil => intro j h; cases h
  | cons x xs ih =>
    intro j h
    cases j with
    | zero =>
      have hx : x = false := by simpa using h
      subst hx
      simp [List.count_cons]
    | succ j =>
      have h' : xs.get? j = some false := by simpa using h
      simp only [List.set_cons_succ, List.count_cons, ih j h']
      omega

lemma jaroFind_some {b : List Char} {consumed : List Bool} {lo hi : Nat} {c : Char} {j : Nat}
    (h : jaroFind b consumed lo hi c = some j) :
    consumed.get? j = some false := by
  have hp := List.find?_some h
  simp only [Bool.and_eq_true, decide_eq_true_eq] at hp
  exact hp.2

/-- Invariant of the Jaro scan: the consumed flags track the second string,
the match count is the number of consumed characters, and there are at most
as many transpositions as matches. -/
def JaroInv (blen : Nat) (st : JaroState) : Prop :=
  st.consumed.length = blen ∧ st.matchCount = st.consumed.count true ∧
    st.transpositions ≤ st.matchCount

lemma jaroStep_inv {b : List Char} {sr : Nat} {st : JaroState} {i : Nat} {c : Char}
    (h : JaroInv b.length st) : JaroInv b.length (jaroStep b sr st i c) := by
  obtain ⟨hlen, hcount, htr⟩ := h
  simp only [jaroStep]
  split
  · exact ⟨hlen, hcount, htr⟩
  · split
    · exact ⟨hlen, hcount, htr⟩
    · next j hf =>
      refine ⟨by simpa using hlen, ?_, ?_⟩
      · simp only
        rw [count_true_set st.consumed j (jaroFind_some hf), hcount]
      · simp only
        split
        · exact Nat.succ_le_succ htr
        · exact Nat.le_succ_of_le htr

lemma jaroScan_inv (b : List Char) (sr : Nat) (l : List (Nat × Char)) (st : JaroState)
    (h : JaroInv b.length st) :
    JaroInv b.length (l.foldl (fun s ic => jaroStep b sr s ic.1 ic.2) st) := by
  induction l generalizing st with
  | nil => exact h
  | cons ic l ih => exact ih _ (jaroStep_inv h)

lemma jaroStep_matchCount_le (b : List Char) (sr : Nat) (st : JaroState) (i : Nat) (c : Char) :
    (jaroStep b sr st i c).matchCount ≤ st.matchCount + 1 := by
  simp only [jaroStep]
  split
  · exact Nat.le_succ _
  · split
    · exact Nat.le_succ _
    · exact le_rfl

lemma jaroScan_matchCount_le (b : List Char) (sr : Nat) (l : List (Nat × Char))
    (st : JaroState) :
    (l.foldl (fun s ic => jaroStep b sr s ic.1 ic.2) st).matchCount ≤
      st.matchCount + l.length := by
  induction l generalizing st with
  | nil => simp
  | cons ic l ih =>
    have h1 := ih (jaroStep b sr st ic.1 ic.2)
    have h2 := jaroStep_matchCount_le b sr st ic.1 ic.2
    simp only [List.foldl_cons, List.length_cons]
    omega

lemma jaro_bounds (a b : List Char) : 0 ≤ jaro a b ∧ jaro a b ≤ 1 := by
  unfold jaro
  split
  · norm_num
  split
  · norm_num
  split
  · split <;> norm_num
  next h1 h2 h3 =>
  dsimp only
  split
  · norm_num
  next hm0 =>
  push_neg at h2
  set sr := max a.length b.length / 2 - 1 with hsr
  set st := a.enum.foldl (fun st ic => jaroStep b sr st ic.1 ic.2)
    ⟨List.replicate b.length false, 0, 0, 0⟩ with hst
  have hinv : JaroInv b.length st := by
    refine jaroScan_inv b sr a.enum ⟨List.replicate b.length false, 0, 0, 0⟩ ?_
    refine ⟨List.length_replicate _ _, ?_, le_rfl⟩
    simp [List.count_replicate]
  have hmb : st.matchCount ≤ b.length := by
    rw [hinv.2.1]
    calc st.consumed.count true ≤ st.consumed.length := List.count_le_length _ _
      _ = b.length := hinv.1
  have hma : st.matchCount ≤ a.length := by
    have := jaroScan_matchCount_le b sr a.enum ⟨List.replicate b.length false, 0, 0, 0⟩
    simpa [List.enum_length] using this
  have htm : st.transpositions ≤ st.matchCount := hinv.2.2
  have hm1 : 1 ≤ st.matchCount := Nat.one_le_iff_ne_zero.mpr hm0
  have ha1 : 0 < a.length := Nat.pos_of_ne_zero h2.1
  have hb1 : 0 < b.length := Nat.pos_of_ne_zero h2.2
  have hmq : (0 : ℚ) < (st.matchCount : ℚ) := by exact_mod_cast hm1
  have haq : (0 : ℚ) < (a.length : ℚ) := by exact_mod_cast ha1
  have hbq : (0 : ℚ) < (b.length : ℚ) := by exact_mod_cast hb1
  have htq : (st.transpositions : ℚ) ≤ (st.matchCount : ℚ) := by exact_mod_cast htm
  have hmaq : (st.matchCount : ℚ) ≤ (a.length : ℚ) := by exact_mod_cast hma
  have hmbq : (st.matchCount : ℚ) ≤ (b.length : ℚ) := by exact_mod_cast hmb
  have t1 : (st.matchCount : ℚ) / (a.length : ℚ) ≤ 1 := (div_le_one haq).mpr hmaq
  have t2 : (st.matchCount : ℚ) / (b.length : ℚ) ≤ 1 := (div_le_one hbq).mpr hmbq
  have t3 : ((st.matchCount : ℚ) - st.transpositions) / st.matchCount ≤ 1 :=
    (div_le_one hmq).mpr (by linarith)
  have s1 : (0 : ℚ) ≤ (st.matchCount : ℚ) / (a.length : ℚ) :=
    div_nonneg (le_of_lt hmq) (le_of_lt haq)
  have s2 : (0 : ℚ) ≤ (st.matchCount : ℚ) / (b.length : ℚ) :=
    div_nonneg (le_of_lt hmq) (le_of_lt hbq)
  have s3 : (0 : ℚ) ≤ ((st.matchCount : ℚ) - st.transpositions) / st.matchCount :=
    div_nonneg (by linarith) (le_of_lt hmq)
  constructor <;> linarith

lemma jaro_winkler_nonneg (a b : String) : 0 ≤ jaro_winkler a b := by
  unfold jaro_winkler
  obtain ⟨hj0, hj1⟩ := jaro_bounds a.toList b.toList
  refine le_min ?_ (by norm_num)
  have hp : (0 : ℚ) ≤
      ((((a.toList.zip b.toList).takeWhile (fun p => p.1 == p.2)).length : ℚ)) :=
    Nat.cast_nonneg _
  nlinarith

lemma jaro_winkler_le_one (a b : String) : jaro_winkler a b ≤ 1 := by
  unfold jaro_winkler
  exact min_le_right _ _

lemma title_similarity_nonneg (a b : Entry) : 0 ≤ title_similarity a b := by
  unfold title_similarity
  split
  · exact jaro_winkler_nonneg _ _
  · norm_num

lemma title_similarity_le_one (a b : Entry) : title_similarity a b ≤ 1 := by
  unfold title_similarity
  split
  · exact jaro_winkler_le_one _ _
  · norm_num

lemma author_overlap_nonneg (a b : Entry) : 0 ≤ author_overlap a b := by
  unfold author_overlap
  split
  · norm_num
  · exact div_nonneg (Nat.cast_nonneg _) (Nat.cast_nonneg _)

lemma author_overlap_le_one (a b : Entry) : author_overlap a b ≤ 1 := by
  unfold author_overlap
  split
  · norm_num
  next h =>
  simp only [Bool.or_eq_true, List.isEmpty_iff, not_or] at h
  have hpos : 0 < a.authors.length := List.length_pos.mpr h.1
  have hq : (0 : ℚ) < (a.authors.length : ℚ) := by exact_mod_cast hpos
  refine (div_le_one hq).mpr ?_
  exact_mod_cast List.countP_le_length _

lemma match_score_bounds (t c : Entry) : 0 ≤ match_score t c ∧ match_score t c ≤ 1 := by
  have ht0 := title_similarity_nonneg t c
  have ht1 := title_similarity_le_one t c
  have ha0 := author_overlap_nonneg t c
  have ha1 := author_overlap_le_one t c
  have hb0 : 0 ≤ title_similarity t c * 0.7 + author_overlap t c * 0.3 := by nlinarith
  have hb1 : title_similarity t c * 0.7 + author_overlap t c * 0.3 ≤ 1 := by nlinarith
  unfold match_score
  dsimp only
  split
  · norm_num
  split
  · norm_num
  split
  · norm_num
  split
  · split
    · norm_num
    · exact ⟨hb0, hb1⟩
  · exact ⟨hb0, hb1⟩

/-! ### Field classification of the discrepancy parts -/

lemma titleDiscs_field (l r : Entry) :
    ∀ d ∈ titleDiscs l r, d.field = DiscrepancyField.Title := by
  unfold titleDiscs
  split
  · dsimp only
    split
    · intro d hd; rw [List.mem_singleton.mp hd]
    split
    · intro d hd; rw [List.mem_singleton.mp hd]
    · intro d hd; cases hd
  · intro d hd; cases hd

lemma yearDiscs_field (l r : Entry) :
    ∀ d ∈ yearDiscs l r, d.field = DiscrepancyField.Year := by
  unfold yearDiscs
  split
  · split
    · intro d hd; rw [List.mem_singleton.mp hd]
    · intro d hd; cases hd
  · intro d hd; cases hd

lemma doiDiscs_field (l r : Entry) :
    ∀ d ∈ doiDiscs l r, d.field = DiscrepancyField.Doi := by
  unfold doiDiscs
  split
  · intro d hd; rw [List.mem_singleton.mp hd]
  · intro d hd; cases hd

lemma venueDiscs_field (l r : Entry) :
    ∀ d ∈ venueDiscs l r, d.field = DiscrepancyField.Venue := by
  unfold venueDiscs
  split
  · dsimp only
    split
    · intro d hd; rw [List.mem_singleton.mp hd]
    · intro d hd; cases hd
  · intro d hd; cases hd

lemma authorDiscsFor_field (remote : List String) (la : String) :
    ∀ d ∈ authorDiscsFor remote la, d.field = DiscrepancyField.Authors := by
  unfold authorDiscsFor
  split
  · split
    · intro d hd; rw [List.mem_singleton.mp hd]
    · intro d hd; cases hd
  · intro d hd; cases hd

lemma compare_authors_field (loc remote : List String) :
    ∀ d ∈ compare_authors loc remote, d.field = DiscrepancyField.Authors := by
  unfold compare_authors
  split
  · intro d hd; cases hd
  · intro d hd
    rcases List.mem_append.mp hd with h | h
    · revert h
      split
      · intro h; rw [List.mem_singleton.mp h]
      · intro h; cases h
    · obtain ⟨blk, hblk, hdblk⟩ := List.mem_flatten.mp h
      obtain ⟨la, _, rfl⟩ := List.mem_map.mp hblk
      exact authorDiscsFor_field remote la d hdblk

/-! ### Filter characterizations of `compare_entries` -/

lemma compare_entries_filter_title (l r : Entry) :
    (compare_entries l r).filter (fun d => decide (d.field = DiscrepancyField.Title)) =
      titleDiscs l r := by
  unfold compare_entries
  rw [List.filter_append, List.filter_append, List.filter_append, List.filter_append]
  rw [List.filter_eq_self.mpr (fun d hd => by
    simp only [decide_eq_true_eq]; exact titleDiscs_field l r d hd)]
  rw [List.filter_eq_nil_iff.mpr (fun d hd => by
    simp only [decide_eq_true_eq, yearDiscs_field l r d hd]; intro h; cases h)]
  rw [List.filter_eq_nil_iff.mpr (fun d hd => by
    simp only [decide_eq_true_eq, compare_authors_field l.authors r.authors d hd]
    intro h; cases h)]
  rw [List.filter_eq_nil_iff.mpr (fun d hd => by
    simp only [decide_eq_true_eq, doiDiscs_field l r d hd]; intro h; cases h)]
  rw [List.filter_eq_nil_iff.mpr (fun d hd => by
    simp only [decide_eq_true_eq, venueDiscs_field l r d hd]; intro h; cases h)]
  simp

lemma compare_entries_filter_doi (l r : Entry) :
    (compare_entries l r).filter (fun d => decide (d.field = DiscrepancyField.Doi)) =
      doiDiscs l r := by
  unfold compare_entries
  rw [List.filter_append, List.filter_append, List.filter_append, List.filter_append]
  rw [List.filter_eq_nil_iff.mpr (fun d hd => by
    simp only [decide_eq_true_eq, titleDiscs_field l r d hd]; intro h; cases h)]
  rw [List.filter_eq_nil_iff.mpr (fun d hd => by
    simp only [decide_eq_true_eq, yearDiscs_field l r d hd]; intro h; cases h)]
  rw [List.filter_eq_nil_iff.mpr (fun d hd => by
    simp only [decide_eq_true_eq, compare_authors_field l.authors r.authors d hd]
    intro h; cases h)]
  rw [List.filter_eq_self.mpr (fun d hd => by
    simp only [decide_eq_true_eq]; exact doiDiscs_field l r d hd)]
  rw [List.filter_eq_nil_iff.mpr (fun d hd => by
    simp only [decide_eq_true_eq, venueDiscs_field l r d hd]; intro h; cases h)]
  simp

/-! ### Specification of `find_best_match` -/

lemma find_best_match_none_iff (t : Entry) (cs : List Entry) :
    find_best_match t cs = none ↔ ∀ c ∈ cs, match_score t c ≤ 0 := by
  unfold find_best_match
  rw [maxBySecond_none_iff]
  constructor
  · intro h c hc
    by_contra hpos
    push_neg at hpos
    have hm : (c, match_score t c) ∈
        (cs.map fun c => (c, match_score t c)).filter (fun p => decide (p.2 > 0)) := by
      rw [List.mem_filter]
      exact ⟨List.mem_map_of_mem _ hc, by simpa using hpos⟩
    rw [h] at hm
    cases hm
  · intro h
    rw [List.filter_eq_nil_iff]
    intro p hp
    obtain ⟨c, hc, rfl⟩ := List.mem_map.mp hp
    simp only [decide_eq_true_eq, not_lt]
    exact h c hc

lemma find_best_match_some_spec (t : Entry) (cs : List Entry) (c : Entry) (s : ℚ)
    (h : find_best_match t cs = some (c, s)) :
    c ∈ cs ∧ match_score t c = s ∧ 0 < s ∧ (∀ d ∈ cs, match_score t d ≤ s) ∧
      ∃ pre post, cs = pre ++ c :: post ∧ ∀ d ∈ post, match_score t d < s := by
  unfold find_best_match at h
  obtain ⟨hmem, hmax, l1, l2, hsplit, hstrict⟩ := maxBySecond_some_spec _ _ h
  have hmf := List.mem_filter.mp hmem
  obtain ⟨c', hc', hpair⟩ := List.mem_map.mp hmf.1
  have hc : c' = c := congrArg Prod.fst hpair
  have hsc : match_score t c' = s := congrArg Prod.snd hpair
  subst hc
  have hpos : 0 < s := by simpa [hsc] using of_decide_eq_true hmf.2
  refine ⟨hc', hsc, hpos, ?_, ?_⟩
  · intro d hd
    by_cases hdp : 0 < match_score t d
    · have : (d, match_score t d) ∈
          (cs.map fun c => (c, match_score t c)).filter (fun p => decide (p.2 > 0)) := by
        rw [List.mem_filter]
        exact ⟨List.mem_map_of_mem _ hd, by simpa using hdp⟩
      exact hmax _ this
    · exact le_of_lt (lt_of_le_of_lt (not_lt.mp hdp) hpos)
  · obtain ⟨m1, m2, hmsplit, _, hfm2⟩ := filter_split _ _ _ _ _ hsplit
    obtain ⟨n1, x, n2, hnsplit, hfx, _, hmapn2⟩ := map_split _ _ _ _ _ hmsplit
    have hx : x = c' := congrArg Prod.fst hfx
    subst hx
    refine ⟨n1, n2, hnsplit, ?_⟩
    intro d hd
    have hdm : (d, match_score t d) ∈ m2 := by
      rw [← hmapn2]
      exact List.mem_map_of_mem _ hd
    by_cases hdp : 0 < match_score t d
    · have : (d, match_score t d) ∈ l2 := by
        rw [← hfm2, List.mem_filter]
        exact ⟨hdm, by simpa using hdp⟩
      exact hstrict _ this
    · exact lt_of_le_of_lt (not_lt.mp hdp) hpos

/-! ### Specification of the per-author best-counterpart search -/

lemma authorBest_some_spec (ln : String) (remote : List String) (ra : String) (s : ℚ)
    (h : authorBest ln remote = some (ra, s)) :
    jaro_winkler ln (normalize_string ra) = s ∧
      (∀ r ∈ remote, jaro_winkler ln (normalize_string r) ≤ s) ∧
      ∃ pre post, remote = pre ++ ra :: post ∧
        ∀ r ∈ post, jaro_winkler ln (normalize_string r) < s := by
  unfold authorBest at h
  obtain ⟨hmem, hmax, l1, l2, hsplit, hstrict⟩ := maxBySecond_some_spec _ _ h
  obtain ⟨r', hr', hpair⟩ := List.mem_map.mp hmem
  have hr : r' = ra := congrArg Prod.fst hpair
  subst hr
  refine ⟨congrArg Prod.snd hpair, ?_, ?_⟩
  · intro r hr
    exact hmax _ (List.mem_map_of_mem _ hr)
  · obtain ⟨m1, x, m2, hmsplit, hfx, _, hmap2⟩ := map_split _ _ _ _ _ hsplit
    have hx : x = r' := congrArg Prod.fst hfx
    subst hx
    refine ⟨m1, m2, hmsplit, ?_⟩
    intro r hr
    have : (r, jaro_winkler ln (normalize_string r)) ∈ l2 := by
      rw [← hmap2]
      exact List.mem_map_of_mem _ hr
    exact hstrict _ this

lemma compare_authors_warning_mem (loc remote : List String) (la ra : String) (s : ℚ)
    (hla : la ∈ loc)
    (hb : authorBest (normalize_string la) remote = some (ra, s))
    (hs : s < AUTHOR_MATCH_THRESHOLD) :
    ({ field := DiscrepancyField.Authors, severity := Severity.Warning,
       local_value := la, remote_value := ra,
       message := "Author name spelling may differ: " ++ la ++ " vs " ++ ra } :
      Discrepancy) ∈ compare_authors loc remote := by
  have hlocne : loc.isEmpty = false := by
    cases loc
    · cases hla
    · rfl
  have hremne : remote.isEmpty = false := by
    cases remote
    · exfalso
      rw [authorBest] at hb
      cases hb
    · rfl
  unfold compare_authors
  rw [hlocne, hremne]
  simp only [Bool.or_self, Bool.false_eq_true, if_false]
  apply List.mem_append_right
  rw [List.mem_flatten]
  refine ⟨authorDiscsFor remote la, List.mem_map_of_mem _ hla, ?_⟩
  unfold authorDiscsFor
  rw [hb]
  dsimp only
  rw [if_pos hs]
  exact List.mem_singleton.mpr rfl

/-! ### The claims -/

def c1xTarget : Entry := { id := "t1", entry_type := "article", doi := some "10.1/X" }

def c1xCand : Entry := { id := "c1", entry_type := "article", doi := some "10.1/x" }

/-- C1 counterexample: both DOIs are present and equal case-insensitively,
yet `match_score` returns 0, not 1 — the DOI shortcut sits after the hard
filters, and here the title filter fires (both titles absent, so title
similarity is 0 < 0.85). -/
theorem C1_counterexample :
    c1xTarget.doi = some "10.1/X" ∧ c1xCand.doi = some "10.1/x" ∧
      toLowerStr "10.1/X" = toLowerStr "10.1/x" ∧
      match_score c1xTarget c1xCand = 0 ∧ match_score c1xTarget c1xCand ≠ 1 := by
  refine ⟨rfl, rfl, ?_, ?_, ?_⟩ <;> with_unfolding_all decide

/-- C1 (amended): if both DOIs are present and equal case-insensitively AND
the three hard filters pass (title similarity at least 0.85, years
compatible, author-overlap filter not triggered), `match_score` returns
exactly 1; the shortcut overrides only the weighted blend, not the hard
filters. -/
theorem C1_amended_doi_shortcut (t c : Entry) (da db : String)
    (hda : t.doi = some da) (hdb : c.doi = some db)
    (hdeq : toLowerStr da = toLowerStr db)
    (ht : TITLE_MATCH_THRESHOLD ≤ title_similarity t c)
    (hy : years_compatible t c = true)
    (ha : ¬(¬t.authors.isEmpty = true ∧ ¬c.authors.isEmpty = true ∧
      author_overlap t c < MIN_AUTHOR_OVERLAP)) :
    match_score t c = 1 := by
  unfold match_score
  dsimp only
  rw [if_neg (not_lt.mpr ht)]
  rw [if_neg (by simp [hy])]
  rw [if_neg ha]
  rw [hda, hdb]
  dsimp only
  rw [if_pos hdeq]

def c1wTarget : Entry :=
  { id := "t1w", entry_type := "article", title := some "abc", doi := some "10.1/X" }

def c1wCand : Entry :=
  { id := "c1w", entry_type := "article", title := some "abc", doi := some "10.1/x" }

/-- Witness for the amended C1 at a concrete input. -/
theorem C1_witness : match_score c1wTarget c1wCand = 1 :=
  C1_amended_doi_shortcut c1wTarget c1wCand "10.1/X" "10.1/x" rfl rfl
    (by with_unfolding_all decide) (by with_unfolding_all decide) rfl
    (by with_unfolding_all decide)

def c2Target : Entry := { id := "t2", entry_type := "article", title := some "abc" }

def c2First : Entry := { id := "first", entry_type := "article", title := some "abc" }

def c2Second : Entry := { id := "second", entry_type := "article", title := some "abc" }

/-- C2 counterexample: two distinct candidates tie at the maximum positive
score 1, and `find_best_match` returns the SECOND one — Rust's
`Iterator::max_by` keeps the last of equally maximal elements, not the
first. -/
theorem C2_counterexample :
    match_score c2Target c2First = 1 ∧ match_score c2Target c2Second = 1 ∧
      c2First ≠ c2Second ∧
      find_best_match c2Target [c2First, c2Second] = some (c2Second, 1) := by
  refine ⟨?_, ?_, ?_, ?_⟩ <;> with_unfolding_all decide

/-- C2 (amended): when `find_best_match` returns a candidate, that candidate
attains the maximum score and is the LAST candidate of the sequence
attaining it: every candidate after its position scores strictly less. -/
theorem C2_amended_last_max (t : Entry) (cs : List Entry) (c : Entry) (s : ℚ)
    (h : find_best_match t cs = some (c, s)) :
    match_score t c = s ∧ (∀ d ∈ cs, match_score t d ≤ s) ∧
      ∃ pre post, cs = pre ++ c :: post ∧ ∀ d ∈ post, match_score t d < s := by
  obtain ⟨_, h1, _, h2, h3⟩ := find_best_match_some_spec t cs c s h
  exact ⟨h1, h2, h3⟩

/-- Witness for the amended C2 at a concrete input. -/
theorem C2_witness :
    match_score c2Target c2Second = 1 ∧
      (∀ d ∈ [c2First, c2Second], match_score c2Target d ≤ 1) ∧
      ∃ pre post, [c2First, c2Second] = pre ++ c2Second :: post ∧
        ∀ d ∈ post, match_score c2Target d < 1 :=
  C2_amended_last_max c2Target [c2First, c2Second] c2Second 1
    (by with_unfolding_all decide)

/-- C3 counterexample: the two remote authors are equally (and poorly)
similar to the local author, and the emitted Warning names the SECOND
remote author, not the first — `max_by` keeps the last of equally maximal
elements. -/
theorem C3_counterexample :
    jaro_winkler (normalize_string "aa") (normalize_string "zz") =
        jaro_winkler (normalize_string "aa") (normalize_string "yy") ∧
      jaro_winkler (normalize_string "aa") (normalize_string "zz") < 0.80 ∧
      (compare_authors ["aa"] ["zz", "yy"]).map
          (fun d => (d.field, d.severity, d.local_value, d.remote_value)) =
        [(DiscrepancyField.Authors, Severity.Warning, "1 authors", "2 authors"),
         (DiscrepancyField.Authors, Severity.Warning, "aa", "yy")] := by
  refine ⟨?_, ?_, ?_⟩ <;> with_unfolding_all decide

/-- C3 (amended): the best remote counterpart of each local author attains
the maximum similarity and is the LAST remote author attaining it (only
greater-or-equal comparisons advance the best), and when that best
similarity is below 0.80 the Warning names that last-encountered
counterpart. -/
theorem C3_amended_last_best (loc remote : List String) (la ra : String) (s : ℚ)
    (hla : la ∈ loc)
    (hb : authorBest (normalize_string la) remote = some (ra, s))
    (hs : s < AUTHOR_MATCH_THRESHOLD) :
    (jaro_winkler (normalize_string la) (normalize_string ra) = s ∧
      (∀ r ∈ remote, jaro_winkler (normalize_string la) (normalize_string r) ≤ s) ∧
      ∃ pre post, remote = pre ++ ra :: post ∧
        ∀ r ∈ post, jaro_winkler (normalize_string la) (normalize_string r) < s) ∧
    ({ field := DiscrepancyField.Authors, severity := Severity.Warning,
       local_value := la, remote_value := ra,
       message := "Author name spelling may differ: " ++ la ++ " vs " ++ ra } :
      Discrepancy) ∈ compare_authors loc remote :=
  ⟨authorBest_some_spec _ _ _ _ hb, compare_authors_warning_mem _ _ _ _ _ hla hb hs⟩

/-- Witness for the amended C3 at a concrete input. -/
theorem C3_witness :
    (jaro_winkler (normalize_string "aa") (normalize_string "yy") = 0 ∧
      (∀ r ∈ ["zz", "yy"], jaro_winkler (normalize_string "aa") (normalize_string r) ≤ 0) ∧
      ∃ pre post, ["zz", "yy"] = pre ++ "yy" :: post ∧
        ∀ r ∈ post, jaro_winkler (normalize_string "aa") (normalize_string r) < 0) ∧
    ({ field := DiscrepancyField.Authors, severity := Severity.Warning,
       local_value := "aa", remote_value := "yy",
       message := "Author name spelling may differ: " ++ "aa" ++ " vs " ++ "yy" } :
      Discrepancy) ∈ compare_authors ["aa"] ["zz", "yy"] :=
  C3_amended_last_best ["aa"] ["zz", "yy"] "aa" "yy" 0 (by with_unfolding_all decide)
    (by with_unfolding_all decide) (by with_unfolding_all decide)

/-- C4: `match_score` returns 0 whenever the normalized-title similarity is
below 0.85, or both years are present with absolute difference greater
than 2, or both author lists are non-empty and the author overlap is below
0.30 (the three hard filters). -/
theorem C4_hard_filters_zero (t c : Entry)
    (h : title_similarity t c < 0.85 ∨
      (∃ ya yb, t.year = some ya ∧ c.year = some yb ∧ 2 < |ya - yb|) ∨
      (t.authors ≠ [] ∧ c.authors ≠ [] ∧ author_overlap t c < 0.3)) :
    match_score t c = 0 := by
  unfold match_score
  dsimp only
  rcases h with h | h | h
  · rw [if_pos (show title_similarity t c < TITLE_MATCH_THRESHOLD from h)]
  · by_cases ht : title_similarity t c < TITLE_MATCH_THRESHOLD
    · rw [if_pos ht]
    · rw [if_neg ht, if_pos]
      obtain ⟨ya, yb, hya, hyb, hd⟩ := h
      unfold years_compatible
      rw [hya, hyb]
      simp only [decide_eq_false_iff_not, not_le]
      exact hd
  · by_cases ht : title_similarity t c < TITLE_MATCH_THRESHOLD
    · rw [if_pos ht]
    · rw [if_neg ht]
      by_cases hy : years_compatible t c = false
      · rw [if_pos hy]
      · rw [if_neg hy, if_pos]
        refine ⟨?_, ?_, h.2.2⟩ <;> simp [List.isEmpty_iff, h.1, h.2.1]

def c4Target : Entry :=
  { id := "t4", entry_type := "article", title := some "abc", year := some 2021 }

def c4Cand : Entry :=
  { id := "c4", entry_type := "article", title := some "abc", year := some 2018 }

/-- Witness for C4 at a concrete input: identical titles but years three
apart. -/
theorem C4_witness : match_score c4Target c4Cand = 0 :=
  C4_hard_filters_zero c4Target c4Cand
    (Or.inr (Or.inl ⟨2021, 2018, rfl, rfl, by decide⟩))

/-- C5: `find_best_match` returns no match exactly when every candidate
scores at most 0; otherwise the returned candidate is one of the
candidates, its score is strictly positive, is the returned score, and is
maximal among all candidates. -/
theorem C5_find_best_match_spec (t : Entry) (cs : List Entry) :
    (find_best_match t cs = none ↔ ∀ c ∈ cs, match_score t c ≤ 0) ∧
      (∀ c s, find_best_match t cs = some (c, s) →
        c ∈ cs ∧ match_score t c = s ∧ 0 < s ∧ ∀ d ∈ cs, match_score t d ≤ s) := by
  refine ⟨find_best_match_none_iff t cs, ?_⟩
  intro c s h
  obtain ⟨h1, h2, h3, h4, _⟩ := find_best_match_some_spec t cs c s h
  exact ⟨h1, h2, h3, h4⟩

/-- Witness for C5 at a concrete input. -/
theorem C5_witness :
    c2Second ∈ [c2First, c2Second] ∧ match_score c2Target c2Second = 1 ∧
      (0 : ℚ) < 1 ∧ ∀ d ∈ [c2First, c2Second], match_score c2Target d ≤ 1 :=
  (C5_find_best_match_spec c2Target [c2First, c2Second]).2 c2Second 1
    (by with_unfolding_all decide)

/-- C6: `compare_entries` emits a Title discrepancy only when both entries
have a title; severity Error below similarity 0.85, Warning in
[0.85, 0.90), nothing at 0.90 or above. -/
theorem C6_title_discrepancy (l r : Entry) :
    ((l.title = none ∨ r.title = none) →
      (compare_entries l r).filter (fun d => decide (d.field = DiscrepancyField.Title)) =
        []) ∧
    (∀ lt rt, l.title = some lt → r.title = some rt →
      (jaro_winkler (normalize_string lt) (normalize_string rt) < 0.85 →
        ((compare_entries l r).filter
            (fun d => decide (d.field = DiscrepancyField.Title))).map
            (fun d => (d.severity, d.local_value, d.remote_value)) =
          [(Severity.Error, lt, rt)]) ∧
      (0.85 ≤ jaro_winkler (normalize_string lt) (normalize_string rt) →
        jaro_winkler (normalize_string lt) (normalize_string rt) < 0.90 →
        ((compare_entries l r).filter
            (fun d => decide (d.field = DiscrepancyField.Title))).map
            (fun d => (d.severity, d.local_value, d.remote_value)) =
          [(Severity.Warning, lt, rt)]) ∧
      (0.90 ≤ jaro_winkler (normalize_string lt) (normalize_string rt) →
        (compare_entries l r).filter (fun d => decide (d.field = DiscrepancyField.Title)) =
          [])) := by
  rw [compare_entries_filter_title]
  constructor
  · intro h
    unfold titleDiscs
    rcases hl : l.title with _ | lt
    · rfl
    · rcases hr : r.title with _ | rt
      · rfl
      · exfalso
        rcases h with h | h
        · rw [hl] at h
          cases h
        · rw [hr] at h
          cases h
  · intro lt rt hlt hrt
    unfold titleDiscs
    rw [hlt, hrt]
    dsimp only
    refine ⟨?_, ?_, ?_⟩
    · intro hsim
      rw [if_pos (show jaro_winkler (normalize_string lt) (normalize_string rt) <
        TITLE_MATCH_THRESHOLD from hsim)]
      rfl
    · intro hsim1 hsim2
      have h1 : TITLE_MATCH_THRESHOLD ≤ jaro_winkler (normalize_string lt)
        (normalize_string rt) := hsim1
      have h2 : jaro_winkler (normalize_string lt) (normalize_string rt) <
        TITLE_WARNING_THRESHOLD := hsim2
      rw [if_neg (not_lt.mpr h1), if_pos h2]
      rfl
    · intro hsim
      have h1 : TITLE_MATCH_THRESHOLD ≤ jaro_winkler (normalize_string lt)
          (normalize_string rt) :=
        le_trans (by norm_num [TITLE_MATCH_THRESHOLD]) hsim
      have h2 : TITLE_WARNING_THRESHOLD ≤ jaro_winkler (normalize_string lt)
        (normalize_string rt) := hsim
      rw [if_neg (not_lt.mpr h1), if_neg (not_lt.mpr h2)]

def c6Local : Entry := { id := "l6", entry_type := "article", title := some "abc" }

def c6Remote : Entry := { id := "r6", entry_type := "article", title := some "xyz" }

/-- Witness for C6 at a concrete input: dissimilar titles give exactly one
Error discrepancy on Title. -/
theorem C6_witness :
    ((compare_entries c6Local c6Remote).filter
        (fun d => decide (d.field = DiscrepancyField.Title))).map
        (fun d => (d.severity, d.local_value, d.remote_value)) =
      [(Severity.Error, "abc", "xyz")] :=
  ((C6_title_discrepancy c6Local c6Remote).2 "abc" "xyz" rfl rfl).1
    (by with_unfolding_all decide)

/-- C7: `author_overlap` is 1 when either author list is empty, and
otherwise is the fraction of local authors having at least one remote
author whose full normalized-name similarity is at least 0.80 or whose
final-token similarity is at least 0.9. -/
theorem C7_author_overlap_spec (l r : Entry) :
    ((l.authors = [] ∨ r.authors = []) → author_overlap l r = 1) ∧
    (l.authors ≠ [] → r.authors ≠ [] →
      author_overlap l r =
        ((l.authors.filter (fun la => r.authors.any (fun ra =>
            decide (0.80 ≤ jaro_winkler (normalize_string la) (normalize_string ra)) ||
            decide (0.9 ≤ jaro_winkler (lastToken (normalize_string la))
              (lastToken (normalize_string ra)))))).length : ℚ) /
          (l.authors.length : ℚ)) := by
  constructor
  · intro h
    unfold author_overlap
    rw [if_pos]
    rcases h with h | h <;> simp [h]
  · intro hl hr
    unfold author_overlap
    rw [if_neg (by simp [List.isEmpty_iff, hl, hr])]
    dsimp only
    rw [List.countP_eq_length_filter]
    exact rfl

def c7Local : Entry := { id := "l7", entry_type := "article" }

def c7Remote : Entry := { id := "r7", entry_type := "article", authors := ["amy lee"] }

/-- Witness for C7 at a concrete input: empty local author list gives
overlap 1. -/
theorem C7_witness : author_overlap c7Local c7Remote = 1 :=
  (C7_author_overlap_spec c7Local c7Remote).1 (Or.inl rfl)

/-- C8: `compare_entries` emits a Doi discrepancy exactly when the local
DOI is absent and the remote DOI is present, and every Doi discrepancy has
severity Warning. -/
theorem C8_doi_discrepancy (l r : Entry) :
    ((∃ d ∈ compare_entries l r, d.field = DiscrepancyField.Doi) ↔
      (l.doi = none ∧ r.doi ≠ none)) ∧
    (∀ d ∈ compare_entries l r, d.field = DiscrepancyField.Doi →
      d.severity = Severity.Warning) := by
  have hmem : ∀ d : Discrepancy,
      (d ∈ compare_entries l r ∧ d.field = DiscrepancyField.Doi) ↔ d ∈ doiDiscs l r := by
    intro d
    constructor
    · intro ⟨h1, h2⟩
      have hf : d ∈ (compare_entries l r).filter
          (fun d => decide (d.field = DiscrepancyField.Doi)) :=
        List.mem_filter.mpr ⟨h1, by simp [h2]⟩
      rwa [compare_entries_filter_doi] at hf
    · intro h
      have h2 := doiDiscs_field l r d h
      have hf : d ∈ (compare_entries l r).filter
          (fun d => decide (d.field = DiscrepancyField.Doi)) := by
        rw [compare_entries_filter_doi]
        exact h
      exact ⟨(List.mem_filter.mp hf).1, h2⟩
  constructor
  · constructor
    · rintro ⟨d, hd, hfld⟩
      have hmd := (hmem d).mp ⟨hd, hfld⟩
      revert hmd
      unfold doiDiscs
      rcases hld : l.doi with _ | x <;> rcases hrd : r.doi with _ | y
      · intro hmd; cases hmd
      · intro _; exact ⟨rfl, by simp⟩
      · intro hmd; cases hmd
      · intro hmd; cases hmd
    · rintro ⟨h1, h2⟩
      rcases hrd : r.doi with _ | y
      · exact absurd hrd h2
      · have hd : ({ field := DiscrepancyField.Doi, severity := Severity.Warning,
                     local_value := "(none)", remote_value := y,
                     message := "Missing DOI in local entry" } : Discrepancy) ∈
            doiDiscs l r := by
          unfold doiDiscs
          rw [h1, hrd]
          exact List.mem_singleton.mpr rfl
        have := (hmem _).mpr hd
        exact ⟨_, this.1, this.2⟩
  · intro d hd hfld
    have hmd := (hmem d).mp ⟨hd, hfld⟩
    revert hmd
    unfold doiDiscs
    rcases l.doi with _ | x <;> rcases r.doi with _ | y
    · intro hmd; cases hmd
    · intro hmd; rw [List.mem_singleton.mp hmd]
    · intro hmd; cases hmd
    · intro hmd; cases hmd

def c8Local : Entry := { id := "l8", entry_type := "article" }

def c8Remote : Entry := { id := "r8", entry_type := "article", doi := some "10.1/abc" }

/-- Witness for C8 at a concrete input: local DOI absent and remote DOI
present produce a Doi discrepancy. -/
theorem C8_witness : ∃ d ∈ compare_entries c8Local c8Remote,
    d.field = DiscrepancyField.Doi :=
  (C8_doi_discrepancy c8Local c8Remote).1.mpr ⟨rfl, by simp [c8Remote]⟩

/-- C9: the similarity primitive always returns a value in the closed unit
interval — in the floating-point realization it therefore never yields
NaN, so the `partial_cmp(..).unwrap()` comparisons in the maximum-by scans
of `compare_authors` and `find_best_match` are total, and every engine
function returns a definite value (the embedded functions are total by
construction). -/
theorem C9_similarity_unit_interval :
    ∀ a b : String, 0 ≤ jaro_winkler a b ∧ jaro_winkler a b ≤ 1 :=
  fun a b => ⟨jaro_winkler_nonneg a b, jaro_winkler_le_one a b⟩

/-- C10: `match_score` always returns a value in the closed interval
[0, 1]: the hard filters return 0, the DOI shortcut returns 1, and the
0.7/0.3 blend of two values in [0, 1] stays in [0, 1]. -/
theorem C10_match_score_unit_interval :
    ∀ t c : Entry, 0 ≤ match_score t c ∧ match_score t c ≤ 1 :=
  fun t c => match_score_bounds t c

end Bibval
